import Mathlib

/-!
Shallow embedding of the training driver in `src/train.py` of the
speaker-identification repository.

Python floats are modelled as rationals (`ℚ`), Python exceptions as an
explicit `Except` value that is threaded through the driver, and the
external ML collaborators (data loader batches, evaluation accuracy,
`torch.save`) as oracle functions that may fail, mirroring the fact that
any of those calls may raise in Python.  The driver state carries, besides
the program variables (`best_acc`, the scheduler), ghost logs of the
observable events of a run: epoch losses reported, accuracies observed,
checkpoint saves, file writes, completed epoch iterations, directories
created and batches processed.
-/

namespace Train

/-- A Python exception: either a `ZeroDivisionError` (raised by
`running_loss / len(train_loader)` or by `(epoch + 1) % eval_interval`)
or an opaque runtime error coming from an external collaborator
(device out-of-memory, shape mismatch, I/O failure, ...). -/
inductive PyErr where
  | zeroDivision : PyErr
  | runtime : Nat → PyErr
deriving DecidableEq, Repr

/-- The `training` section of the configuration (`cfg.training[...]` keys
read by `main` in src/train.py). -/
structure TrainingCfg where
  seed : Nat
  batchSize : Nat
  learningRate : ℚ
  weightDecay : ℚ
  epochs : Nat
  evalInterval : Nat
  savePath : String
deriving DecidableEq, Repr

/-- The mutable state of the loop of `main` together with ghost logs of its
observable events. -/
structure DriverState where
  /-- Embeds `best_acc` (src/train.py line 71). -/
  bestAcc : ℚ
  /-- number of `scheduler.step()` calls performed (line 97). -/
  schedSteps : Nat
  /-- number of `optimizer.step()` calls performed (line 83). -/
  optSteps : Nat
  /-- the `avg_loss` reported for each completed training phase (line 86). -/
  epochLosses : List ℚ
  /-- the validation accuracies observed, with their 0-based epoch (line 90). -/
  accsSeen : List (Nat × ℚ)
  /-- the 0-based epochs at which a checkpoint was saved (line 94). -/
  saves : List Nat
  /-- the file paths written by `torch.save` (line 94). -/
  writes : List String
  /-- the 0-based epochs whose loop iteration ran to completion. -/
  epochsRun : List Nat
  /-- the per-batch losses processed by the training loop, in order (lines 77-84). -/
  processed : List ℚ
  /-- the directories created by `os.makedirs` (line 72). -/
  dirsCreated : List String
deriving DecidableEq, Repr

/-- Embeds `os.path.join(a, b)` for a relative, non-empty `b`. -/
def osPathJoin (a b : String) : String :=
  if a = "" then b
  else if a.endsWith "/" then a ++ b
  else a ++ "/" ++ b

/-- The state right before the epoch loop: `best_acc = 0.0` and
`os.makedirs(cfg.training["save_path"], exist_ok=True)`
(src/train.py lines 71-72). -/
def initState (cfg : TrainingCfg) : DriverState :=
  { bestAcc := 0, schedSteps := 0, optSteps := 0, epochLosses := [],
    accsSeen := [], saves := [], writes := [], epochsRun := [],
    processed := [], dirsCreated := [cfg.savePath] }

/-- The outcome of processing one training batch: the `loss.item()` value,
or the exception the batch raised. -/
abbrev BatchOutcome := Except PyErr ℚ

/-- The inner `for batch in train_loader` loop (src/train.py lines 77-84):
accumulates `running_loss`, counts one `optimizer.step()` per batch, logs
each processed batch loss in order, and aborts on the first raising batch
(there is no `try/except` around the loop body). -/
def trainBatches : List BatchOutcome → ℚ × Nat × List ℚ → Except PyErr (ℚ × Nat × List ℚ)
  | [], acc => .ok acc
  | b :: rest, (running, steps, procd) =>
    match b with
    | .error e => .error e
    | .ok l => trainBatches rest (running + l, steps + 1, procd ++ [l])

/-- Training phase of one epoch (src/train.py lines 75-87): run all batches,
then report `avg_loss = running_loss / len(train_loader)`; an empty loader
raises `ZeroDivisionError` at the division. -/
def trainPhase (batches : List BatchOutcome) (s : DriverState) : Except PyErr DriverState :=
  match trainBatches batches (0, 0, []) with
  | .error e => .error e
  | .ok (running, steps, procd) =>
    if batches.length = 0 then .error .zeroDivision
    else .ok { s with
      optSteps := s.optSteps + steps,
      processed := s.processed ++ procd,
      epochLosses := s.epochLosses ++ [running / (batches.length : ℚ)] }

/-- The checkpoint step (src/train.py lines 92-95): save only on strict
improvement `acc > best_acc`; the save goes to
`os.path.join(cfg.training["save_path"], "best_model.pth")` and may itself
raise. -/
def checkpointPhase (cfg : TrainingCfg) (saveOf : Nat → Except PyErr Unit)
    (epoch : Nat) (acc : ℚ) (s : DriverState) : Except PyErr DriverState :=
  if s.bestAcc < acc then
    match saveOf epoch with
    | .error e => .error e
    | .ok _ => .ok { s with
        bestAcc := acc,
        saves := s.saves ++ [epoch],
        writes := s.writes ++ [osPathJoin cfg.savePath "best_model.pth"] }
  else .ok s

/-- The evaluation step (src/train.py lines 89-95): the guard
`(epoch + 1) % cfg.training["eval_interval"] == 0` raises
`ZeroDivisionError` when `eval_interval = 0`; otherwise, on evaluation
epochs, obtain the accuracy (which may raise) and run the checkpoint
step. -/
def evalPhase (cfg : TrainingCfg) (accOf : Nat → Except PyErr ℚ)
    (saveOf : Nat → Except PyErr Unit) (epoch : Nat) (s : DriverState) :
    Except PyErr DriverState :=
  if cfg.evalInterval = 0 then .error .zeroDivision
  else if (epoch + 1) % cfg.evalInterval = 0 then
    match accOf epoch with
    | .error e => .error e
    | .ok acc =>
      checkpointPhase cfg saveOf epoch acc
        { s with accsSeen := s.accsSeen ++ [(epoch, acc)] }
  else .ok s

/-- One iteration of the epoch loop (src/train.py lines 74-97): train,
maybe evaluate/checkpoint, then `scheduler.step()`. -/
def runEpoch (cfg : TrainingCfg) (batchesOf : Nat → List BatchOutcome)
    (accOf : Nat → Except PyErr ℚ) (saveOf : Nat → Except PyErr Unit)
    (epoch : Nat) (s : DriverState) : Except PyErr DriverState :=
  match trainPhase (batchesOf epoch) s with
  | .error e => .error e
  | .ok s1 =>
    match evalPhase cfg accOf saveOf epoch s1 with
    | .error e => .error e
    | .ok s2 => .ok { s2 with
        schedSteps := s2.schedSteps + 1,
        epochsRun := s2.epochsRun ++ [epoch] }

/-- Runs `count` successive iterations of the epoch loop starting at 0-based
epoch `start`; the first exception aborts the run (no handler in `main`). -/
def runEpochsFrom (cfg : TrainingCfg) (batchesOf : Nat → List BatchOutcome)
    (accOf : Nat → Except PyErr ℚ) (saveOf : Nat → Except PyErr Unit) :
    Nat → Nat → DriverState → Except PyErr DriverState
  | _, 0, s => .ok s
  | start, count + 1, s =>
    match runEpoch cfg batchesOf accOf saveOf start s with
    | .error e => .error e
    | .ok s1 => runEpochsFrom cfg batchesOf accOf saveOf (start + 1) count s1

/-- Embeds `main` (src/train.py lines 42-97): load the configuration (whose
failure propagates), then run `cfg.training["epochs"]` epoch iterations
from the initial state. -/
def main (cfgE : Except PyErr TrainingCfg) (batchesOf : Nat → List BatchOutcome)
    (accOf : Nat → Except PyErr ℚ) (saveOf : Nat → Except PyErr Unit) :
    Except PyErr DriverState :=
  match cfgE with
  | .error e => .error e
  | .ok cfg => runEpochsFrom cfg batchesOf accOf saveOf 0 cfg.epochs (initState cfg)

/-- Embeds `torch.argmax` over a row of logits: index of the first maximal
entry. -/
def argmaxGo : List ℚ → Nat → Nat → ℚ → Nat
  | [], _, bi, _ => bi
  | x :: xs, i, bi, bv =>
    if bv < x then argmaxGo xs (i + 1) i x else argmaxGo xs (i + 1) bi bv

/-- Embeds `torch.argmax(outputs, dim=1)` for one row. -/
def argmax : List ℚ → Nat
  | [] => 0
  | x :: xs => argmaxGo xs 1 0 x

/-- Embeds `sklearn.metrics.accuracy_score(y_true, y_pred)`: the fraction of
positions where prediction equals label. -/
def accuracy_score (yTrue yPred : List Nat) : ℚ :=
  (((yTrue.zip yPred).countP fun p => decide (p.1 = p.2)) : ℚ) / (yTrue.length : ℚ)

/-- The model as seen by `evaluate`: parameter state, the train/eval mode
flag toggled by `model.eval()` / `model.train()`, and the forward pass
producing per-class logits from the parameters and one input example. -/
structure Model (α : Type) where
  params : List ℚ
  training : Bool
  logits : List ℚ → α → List ℚ

/-- The loop body of `evaluate` for one batch (src/train.py lines 34-39):
forward pass, per-row argmax, extend `preds` and `labels`; the third
component logs, per forward call, whether gradient tracking was enabled
(always `false`: the loop runs under `torch.no_grad()`). -/
def evalStep {α : Type} (m : Model α) (st : List Nat × List Nat × List Bool)
    (batch : List (α × Nat)) : List Nat × List Nat × List Bool :=
  let outputs := batch.map fun ex => m.logits m.params ex.1
  let predicted := outputs.map argmax
  (st.1 ++ predicted, st.2.1 ++ batch.map Prod.snd, st.2.2 ++ [false])

/-- Embeds `evaluate(model, dataloader, device)` (src/train.py lines 30-40):
switch the model to eval mode, run every batch under `torch.no_grad()`,
and return `accuracy_score(labels, preds)`, together with the model state
after the call and the per-forward-call gradient-tracking log. -/
def evaluate {α : Type} (model : Model α) (dataloader : List (List (α × Nat))) :
    ℚ × Model α × List Bool :=
  let m := { model with training := false }
  let res := dataloader.foldl (evalStep m) ([], [], [])
  (accuracy_score res.2.1 res.1, m, res.2.2)

/-- The global random state of the process: the four random sources seeded
by `set_seed` (src/train.py lines 19-23). -/
structure RNGState where
  pyRandom : Nat
  npRandom : Nat
  torchSeed : Nat
  torchCudaSeed : Nat
deriving DecidableEq, Repr

/-- Embeds `set_seed(seed)` (src/train.py lines 19-23): overwrite every random
source of the process with the configured seed, discarding whatever
global random state existed before. -/
def set_seed (seed : Nat) : RNGState :=
  { pyRandom := seed, npRandom := seed, torchSeed := seed, torchCudaSeed := seed }

/-- Split a list into chunks of `b` elements, the last chunk possibly
shorter (fuel-structured recursion; `b` is clamped to at least 1). -/
def chunksAux {α : Type} : Nat → Nat → List α → List (List α)
  | 0, _, _ => []
  | _, _, [] => []
  | fuel + 1, b, x :: xs => (x :: xs).take b :: chunksAux fuel b ((x :: xs).drop b)

/-- Split a list into chunks of `b` elements each, the last chunk possibly
shorter. -/
def chunkList {α : Type} (b : Nat) (l : List α) : List (List α) :=
  chunksAux l.length (max b 1) l

/-- Modelled from the spec: `FixedLengthBatchSampler` (utils/sampler.py)
is not under src/.  Per spec §4.1 it groups dataset indices into batches
of size `batchSize` (last batch may be shorter) with examples of similar
length, and any shuffling it performs is driven by the random sources
seeded in INIT.  We model it as a deterministic function of the seeded
RNG state and the per-example lengths: indices are rotated by an
RNG-derived offset, stably sorted by example length, and chunked. -/
def samplerBatches (rng : RNGState) (lengths : List Nat) (batchSize : Nat) :
    List (List Nat) :=
  let n := lengths.length
  let idx := List.range n
  let rot := rng.npRandom % (n + 1)
  let shuffled := idx.drop rot ++ idx.take rot
  let sorted := shuffled.insertionSort fun i j => lengths.getD i 0 ≤ lengths.getD j 0
  chunkList batchSize sorted

/-- A complete run of the script, starting from an arbitrary pre-existing
global random state `g`: `set_seed` replaces `g` by a state derived only
from `cfg.seed`, the batch ordering of the sampler is derived from that state,
and the driver consumes per-epoch batch outcomes that are a function
(`lossOf`, abstracting model/data dynamics) of the batch ordering.
Returns the batch ordering and the driver outcome. -/
def fullRun (g : RNGState) (cfg : TrainingCfg) (lengths : List Nat)
    (lossOf : List (List Nat) → Nat → List BatchOutcome)
    (accOf : Nat → Except PyErr ℚ) (saveOf : Nat → Except PyErr Unit) :
    List (List Nat) × Except PyErr DriverState :=
  let rng := set_seed cfg.seed
  let order := samplerBatches rng lengths cfg.batchSize
  (order, main (.ok cfg) (lossOf order) accOf saveOf)

/-- The spec-side checkpoint policy of claim C1, amended: scanning the
observed accuracies in order, an evaluation epoch saves exactly when its
accuracy is strictly greater than 0 (the initial `best_acc`) and strictly
greater than every previously observed accuracy. -/
def specSavesAux : List ℚ → List (Nat × ℚ) → List Nat
  | _, [] => []
  | prev, (e, a) :: rest =>
    if 0 < a ∧ ∀ p ∈ prev, p < a then e :: specSavesAux (prev ++ [a]) rest
    else specSavesAux (prev ++ [a]) rest

/-- The epochs at which the amended claim C1 policy saves, given the
accuracies observed at evaluation epochs in order. -/
def specSaves (as : List (Nat × ℚ)) : List Nat :=
  specSavesAux [] as

/-- Claim C1 as frozen: in every completed run, a checkpoint is saved at
an evaluation epoch if and only if its accuracy is strictly greater than
every previously observed accuracy (vacuously true at the first
evaluation). -/
def savedIffStrictMax (s : DriverState) : Prop :=
  ∀ i, (h : i < s.accsSeen.length) →
    ((s.accsSeen.get ⟨i, h⟩).1 ∈ s.saves ↔
      ∀ p ∈ (s.accsSeen.take i).map Prod.snd, p < (s.accsSeen.get ⟨i, h⟩).2)

/-! ## Helper lemmas about the phases of the driver -/

theorem foldl_max_lt_iff (l : List ℚ) (b a : ℚ) :
    l.foldl max b < a ↔ b < a ∧ ∀ x ∈ l, x < a := by
  induction l generalizing b with
  | nil => simp
  | cons x xs ih =>
    simp only [List.foldl_cons, ih, max_lt_iff, List.mem_cons]
    constructor
    · rintro ⟨⟨hb, hx⟩, hxs⟩
      refine ⟨hb, ?_⟩
      rintro y (rfl | hy)
      · exact hx
      · exact hxs y hy
    · rintro ⟨hb, hall⟩
      exact ⟨⟨hb, hall x (Or.inl rfl)⟩, fun y hy => hall y (Or.inr hy)⟩

theorem specSavesAux_cons (prev : List ℚ) (e : Nat) (a : ℚ) (rest : List (Nat × ℚ)) :
    specSavesAux prev ((e, a) :: rest) =
      if 0 < a ∧ ∀ p ∈ prev, p < a then e :: specSavesAux (prev ++ [a]) rest
      else specSavesAux (prev ++ [a]) rest := rfl

theorem specSavesAux_append (as : List (Nat × ℚ)) (prev : List ℚ) (e : Nat) (a : ℚ) :
    specSavesAux prev (as ++ [(e, a)]) =
      specSavesAux prev as ++
        (if 0 < a ∧ ∀ p ∈ prev ++ as.map Prod.snd, p < a then [e] else []) := by
  induction as generalizing prev with
  | nil => simp [specSavesAux]
  | cons hd tl ih =>
    obtain ⟨e', a'⟩ := hd
    have hlist : (prev ++ [a']) ++ tl.map Prod.snd = prev ++ (a' :: tl.map Prod.snd) := by
      simp
    rw [List.cons_append, specSavesAux_cons, specSavesAux_cons, ih, List.map_cons, ← hlist]
    by_cases hc : 0 < a' ∧ ∀ p ∈ prev, p < a'
    · rw [if_pos hc, if_pos hc, List.cons_append]
    · rw [if_neg hc, if_neg hc]

theorem trainBatches_ok_map (ls : List ℚ) (r : ℚ) (st : Nat) (pr : List ℚ) :
    trainBatches (ls.map Except.ok) (r, st, pr) = .ok (r + ls.sum, st + ls.length, pr ++ ls) := by
  induction ls generalizing r st pr with
  | nil => simp [trainBatches]
  | cons x xs ih =>
    simp only [List.map_cons, trainBatches, ih, List.sum_cons, List.length_cons,
      List.append_assoc, List.singleton_append, Except.ok.injEq, Prod.mk.injEq]
    refine ⟨by ring, by omega, trivial⟩

theorem trainPhase_ok_shape (bs : List BatchOutcome) (s s' : DriverState)
    (h : trainPhase bs s = .ok s') :
    ∃ running steps procd, trainBatches bs (0, 0, []) = .ok (running, steps, procd) ∧
      bs.length ≠ 0 ∧
      s' = { s with optSteps := s.optSteps + steps,
                    processed := s.processed ++ procd,
                    epochLosses := s.epochLosses ++ [running / (bs.length : ℚ)] } := by
  unfold trainPhase at h
  cases htb : trainBatches bs (0, 0, []) with
  | error e => rw [htb] at h; exact absurd h (by simp)
  | ok t =>
    rw [htb] at h
    obtain ⟨running, steps, procd⟩ := t
    by_cases hlen : bs.length = 0
    · simp [hlen] at h
    · simp only [hlen, if_neg hlen, ite_false, Except.ok.injEq] at h
      exact ⟨running, steps, procd, rfl, hlen, h.symm⟩

theorem trainPhase_ok_map (ls : List ℚ) (s : DriverState) (hne : ls ≠ []) :
    trainPhase (ls.map Except.ok) s =
      .ok { s with optSteps := s.optSteps + ls.length,
                   processed := s.processed ++ ls,
                   epochLosses := s.epochLosses ++ [ls.sum / (ls.length : ℚ)] } := by
  have hlen : ls.length ≠ 0 := fun hc => hne (List.eq_nil_of_length_eq_zero hc)
  unfold trainPhase
  rw [trainBatches_ok_map]
  simp [List.length_map, hlen]

theorem checkpointPhase_ok_shape (cfg : TrainingCfg) (saveOf : Nat → Except PyErr Unit)
    (e : Nat) (acc : ℚ) (s s' : DriverState)
    (h : checkpointPhase cfg saveOf e acc s = .ok s') :
    (s.bestAcc < acc ∧
      s' = { s with bestAcc := acc, saves := s.saves ++ [e],
                    writes := s.writes ++ [osPathJoin cfg.savePath "best_model.pth"] }) ∨
    (¬ s.bestAcc < acc ∧ s' = s) := by
  unfold checkpointPhase at h
  by_cases hlt : s.bestAcc < acc
  · rw [if_pos hlt] at h
    cases hsv : saveOf e with
    | error ex => rw [hsv] at h; exact absurd h (by simp)
    | ok u =>
      rw [hsv] at h
      simp only [Except.ok.injEq] at h
      exact Or.inl ⟨hlt, h.symm⟩
  · rw [if_neg hlt] at h
    simp only [Except.ok.injEq] at h
    exact Or.inr ⟨hlt, h.symm⟩

theorem evalPhase_ok_shape (cfg : TrainingCfg) (accOf : Nat → Except PyErr ℚ)
    (saveOf : Nat → Except PyErr Unit) (e : Nat) (s s' : DriverState)
    (h : evalPhase cfg accOf saveOf e s = .ok s') :
    cfg.evalInterval ≠ 0 ∧
      (((e + 1) % cfg.evalInterval ≠ 0 ∧ s' = s) ∨
        ((e + 1) % cfg.evalInterval = 0 ∧ ∃ a, accOf e = .ok a ∧
          checkpointPhase cfg saveOf e a
            { s with accsSeen := s.accsSeen ++ [(e, a)] } = .ok s')) := by
  unfold evalPhase at h
  by_cases hI : cfg.evalInterval = 0
  · rw [if_pos hI] at h; exact absurd h (by simp)
  · rw [if_neg hI] at h
    refine ⟨hI, ?_⟩
    by_cases hm : (e + 1) % cfg.evalInterval = 0
    · rw [if_pos hm] at h
      cases hac : accOf e with
      | error ex => rw [hac] at h; exact absurd h (by simp)
      | ok a => rw [hac] at h; exact Or.inr ⟨hm, a, rfl, h⟩
    · rw [if_neg hm] at h
      simp only [Except.ok.injEq] at h
      exact Or.inl ⟨hm, h.symm⟩

theorem runEpoch_ok_shape (cfg : TrainingCfg) (bt : Nat → List BatchOutcome)
    (ac : Nat → Except PyErr ℚ) (sv : Nat → Except PyErr Unit)
    (e : Nat) (s s' : DriverState)
    (h : runEpoch cfg bt ac sv e s = .ok s') :
    ∃ s1 s2, trainPhase (bt e) s = .ok s1 ∧ evalPhase cfg ac sv e s1 = .ok s2 ∧
      s' = { s2 with schedSteps := s2.schedSteps + 1,
                     epochsRun := s2.epochsRun ++ [e] } := by
  unfold runEpoch at h
  split at h
  · exact absurd h (by simp)
  · rename_i s1 htp
    split at h
    · exact absurd h (by simp)
    · rename_i s2 hev
      simp only [Except.ok.injEq] at h
      exact ⟨s1, s2, htp, hev, h.symm⟩

theorem runEpoch_ok_fields (cfg : TrainingCfg) (bt : Nat → List BatchOutcome)
    (ac : Nat → Except PyErr ℚ) (sv : Nat → Except PyErr Unit)
    (e : Nat) (s s' : DriverState)
    (h : runEpoch cfg bt ac sv e s = .ok s') :
    s'.schedSteps = s.schedSteps + 1 ∧
    s'.epochsRun = s.epochsRun ++ [e] ∧
    s'.dirsCreated = s.dirsCreated ∧
    cfg.evalInterval ≠ 0 ∧
    (((e + 1) % cfg.evalInterval ≠ 0 ∧ s'.accsSeen = s.accsSeen ∧ s'.saves = s.saves ∧
        s'.bestAcc = s.bestAcc ∧ s'.writes = s.writes) ∨
      (∃ a, (e + 1) % cfg.evalInterval = 0 ∧ ac e = .ok a ∧
        s'.accsSeen = s.accsSeen ++ [(e, a)] ∧
        ((s.bestAcc < a ∧ s'.bestAcc = a ∧ s'.saves = s.saves ++ [e] ∧
            s'.writes = s.writes ++ [osPathJoin cfg.savePath "best_model.pth"]) ∨
          (¬ s.bestAcc < a ∧ s'.bestAcc = s.bestAcc ∧ s'.saves = s.saves ∧
            s'.writes = s.writes)))) := by
  obtain ⟨s1, s2, htp, hev, hs'⟩ := runEpoch_ok_shape cfg bt ac sv e s s' h
  obtain ⟨r, st, pr, -, -, hs1⟩ := trainPhase_ok_shape _ _ _ htp
  obtain ⟨hI, hcase⟩ := evalPhase_ok_shape _ _ _ _ _ _ hev
  subst hs' hs1
  rcases hcase with ⟨hm, rfl⟩ | ⟨hm, a, hac, hcp⟩
  · exact ⟨rfl, rfl, rfl, hI, Or.inl ⟨hm, rfl, rfl, rfl, rfl⟩⟩
  · rcases checkpointPhase_ok_shape _ _ _ _ _ _ hcp with ⟨hlt, rfl⟩ | ⟨hlt, rfl⟩
    · exact ⟨rfl, rfl, rfl, hI,
        Or.inr ⟨a, hm, hac, rfl, Or.inl ⟨hlt, rfl, rfl, rfl⟩⟩⟩
    · exact ⟨rfl, rfl, rfl, hI,
        Or.inr ⟨a, hm, hac, rfl, Or.inr ⟨hlt, rfl, rfl, rfl⟩⟩⟩

theorem runEpochsFrom_ok_sched (cfg : TrainingCfg) (bt : Nat → List BatchOutcome)
    (ac : Nat → Except PyErr ℚ) (sv : Nat → Except PyErr Unit) (n : Nat) :
    ∀ (start : Nat) (s s' : DriverState),
      runEpochsFrom cfg bt ac sv start n s = .ok s' →
      s'.schedSteps = s.schedSteps + n := by
  induction n with
  | zero =>
    intro start s s' h
    simp only [runEpochsFrom, Except.ok.injEq] at h
    rw [h]
    omega
  | succ n ih =>
    intro start s s' h
    unfold runEpochsFrom at h
    split at h
    · exact absurd h (by simp)
    · rename_i s1 hstep
      have h1 := (runEpoch_ok_fields cfg bt ac sv start s s1 hstep).1
      have h2 := ih (start + 1) s1 s' h
      omega

/-- The invariant linking the program variable `best_acc` and the save log
to the accuracies observed so far. -/
def CheckpointInv (s : DriverState) : Prop :=
  s.bestAcc = (s.accsSeen.map Prod.snd).foldl max 0 ∧ s.saves = specSaves s.accsSeen

theorem specSaves_append (as : List (Nat × ℚ)) (e : Nat) (a : ℚ) :
    specSaves (as ++ [(e, a)]) =
      specSaves as ++ (if 0 < a ∧ ∀ p ∈ as.map Prod.snd, p < a then [e] else []) := by
  unfold specSaves
  rw [specSavesAux_append]
  simp only [List.nil_append]

theorem runEpoch_preserves_inv (cfg : TrainingCfg) (bt : Nat → List BatchOutcome)
    (ac : Nat → Except PyErr ℚ) (sv : Nat → Except PyErr Unit)
    (e : Nat) (s s' : DriverState)
    (h : runEpoch cfg bt ac sv e s = .ok s') (hinv : CheckpointInv s) :
    CheckpointInv s' := by
  obtain ⟨-, -, -, -, hcase⟩ := runEpoch_ok_fields cfg bt ac sv e s s' h
  rcases hcase with ⟨-, hacc, hsv, hbest, -⟩ | ⟨a, -, -, hacc, hcase⟩
  · exact ⟨by rw [hbest, hacc, hinv.1], by rw [hsv, hacc, hinv.2]⟩
  · have hfold := foldl_max_lt_iff (s.accsSeen.map Prod.snd) 0 a
    have hmap : (s.accsSeen ++ [(e, a)]).map Prod.snd = s.accsSeen.map Prod.snd ++ [a] := by
      simp
    have hfoldapp : ((s.accsSeen ++ [(e, a)]).map Prod.snd).foldl max 0 =
        max ((s.accsSeen.map Prod.snd).foldl max 0) a := by
      rw [hmap, List.foldl_append]
      rfl
    rcases hcase with ⟨hlt, hbest, hsv, -⟩ | ⟨hlt, hbest, hsv, -⟩
    · have hcond : 0 < a ∧ ∀ p ∈ s.accsSeen.map Prod.snd, p < a := by
        rw [hinv.1] at hlt
        exact hfold.mp hlt
      constructor
      · rw [hbest, hacc, hfoldapp, ← hinv.1]
        exact (max_eq_right (le_of_lt hlt)).symm
      · rw [hsv, hacc, specSaves_append, if_pos hcond, hinv.2]
    · have hcond : ¬ (0 < a ∧ ∀ p ∈ s.accsSeen.map Prod.snd, p < a) := by
        intro hc
        exact hlt (by rw [hinv.1]; exact hfold.mpr hc)
      constructor
      · rw [hbest, hacc, hfoldapp, ← hinv.1]
        exact (max_eq_left (not_lt.mp hlt)).symm
      · rw [hsv, hacc, specSaves_append, if_neg hcond, hinv.2, List.append_nil]

theorem runEpochsFrom_preserves_inv (cfg : TrainingCfg) (bt : Nat → List BatchOutcome)
    (ac : Nat → Except PyErr ℚ) (sv : Nat → Except PyErr Unit) (n : Nat) :
    ∀ (start : Nat) (s s' : DriverState),
      runEpochsFrom cfg bt ac sv start n s = .ok s' →
      CheckpointInv s → CheckpointInv s' := by
  induction n with
  | zero =>
    intro start s s' h hinv
    simp only [runEpochsFrom, Except.ok.injEq] at h
    rw [← h]
    exact hinv
  | succ n ih =>
    intro start s s' h hinv
    unfold runEpochsFrom at h
    split at h
    · exact absurd h (by simp)
    · rename_i s1 hstep
      exact ih (start + 1) s1 s' h
        (runEpoch_preserves_inv cfg bt ac sv start s s1 hstep hinv)

theorem runEpochsFrom_ok_writes (cfg : TrainingCfg) (bt : Nat → List BatchOutcome)
    (ac : Nat → Except PyErr ℚ) (sv : Nat → Except PyErr Unit) (n : Nat) :
    ∀ (start : Nat) (s s' : DriverState),
      runEpochsFrom cfg bt ac sv start n s = .ok s' →
      s'.dirsCreated = s.dirsCreated ∧
      ∀ p ∈ s'.writes, p ∈ s.writes ∨ p = osPathJoin cfg.savePath "best_model.pth" := by
  induction n with
  | zero =>
    intro start s s' h
    simp only [runEpochsFrom, Except.ok.injEq] at h
    rw [← h]
    exact ⟨rfl, fun p hp => Or.inl hp⟩
  | succ n ih =>
    intro start s s' h
    unfold runEpochsFrom at h
    split at h
    · exact absurd h (by simp)
    · rename_i s1 hstep
      obtain ⟨-, -, hdirs, -, hcase⟩ := runEpoch_ok_fields cfg bt ac sv start s s1 hstep
      obtain ⟨hdirs', hw'⟩ := ih (start + 1) s1 s' h
      refine ⟨by rw [hdirs', hdirs], ?_⟩
      have hw1 : ∀ p ∈ s1.writes, p ∈ s.writes ∨ p = osPathJoin cfg.savePath "best_model.pth" := by
        rcases hcase with ⟨-, -, -, -, hw⟩ | ⟨a, -, -, -, ⟨-, -, -, hw⟩ | ⟨-, -, -, hw⟩⟩
        · rw [hw]; exact fun p hp => Or.inl hp
        · rw [hw]
          intro p hp
          rcases List.mem_append.mp hp with hp | hp
          · exact Or.inl hp
          · exact Or.inr (List.mem_singleton.mp hp)
        · rw [hw]; exact fun p hp => Or.inl hp
      intro p hp
      rcases hw' p hp with hp1 | hp1
      · exact hw1 p hp1
      · exact Or.inr hp1

theorem runEpochsFrom_error_prop (cfg : TrainingCfg) (bt : Nat → List BatchOutcome)
    (ac : Nat → Except PyErr ℚ) (sv : Nat → Except PyErr Unit) (i : Nat) :
    ∀ (start : Nat) (s si : DriverState) (err : PyErr) (n : Nat),
      runEpochsFrom cfg bt ac sv start i s = .ok si →
      runEpoch cfg bt ac sv (start + i) si = .error err →
      i < n →
      runEpochsFrom cfg bt ac sv start n s = .error err := by
  induction i with
  | zero =>
    intro start s si err n h0 herr hn
    simp only [runEpochsFrom, Except.ok.injEq] at h0
    subst h0
    obtain ⟨m, rfl⟩ : ∃ m, n = m + 1 := ⟨n - 1, by omega⟩
    rw [Nat.add_zero] at herr
    unfold runEpochsFrom
    rw [herr]
  | succ i ih =>
    intro start s si err n h herr hn
    unfold runEpochsFrom at h
    split at h
    · exact absurd h (by simp)
    · rename_i s1 hstep
      obtain ⟨m, rfl⟩ : ∃ m, n = m + 1 := ⟨n - 1, by omega⟩
      unfold runEpochsFrom
      rw [hstep]
      refine ih (start + 1) s1 si err m h ?_ (by omega)
      rw [show start + 1 + i = start + (i + 1) from by omega]
      exact herr

theorem runEpoch_interval_zero (cfg : TrainingCfg) (bt : Nat → List BatchOutcome)
    (ac : Nat → Except PyErr ℚ) (sv : Nat → Except PyErr Unit)
    (hI : cfg.evalInterval = 0) (e : Nat) (s s' : DriverState) :
    runEpoch cfg bt ac sv e s ≠ .ok s' := by
  intro h
  obtain ⟨-, -, -, hI', -⟩ := runEpoch_ok_fields cfg bt ac sv e s s' h
  exact hI' hI

theorem runEpoch_interval_zero_err (cfg : TrainingCfg) (bt : Nat → List BatchOutcome)
    (ac : Nat → Except PyErr ℚ) (sv : Nat → Except PyErr Unit)
    (hI : cfg.evalInterval = 0) (e : Nat) (s : DriverState) (ls : List ℚ)
    (hbt : bt e = ls.map Except.ok) (hne : ls ≠ []) :
    runEpoch cfg bt ac sv e s = .error .zeroDivision := by
  unfold runEpoch
  rw [hbt, trainPhase_ok_map ls s hne]
  simp [evalPhase, hI]

theorem runEpochsFrom_interval_zero_not_ok (cfg : TrainingCfg)
    (bt : Nat → List BatchOutcome) (ac : Nat → Except PyErr ℚ)
    (sv : Nat → Except PyErr Unit) (hI : cfg.evalInterval = 0)
    (n start : Nat) (hn : 1 ≤ n) (s s' : DriverState) :
    runEpochsFrom cfg bt ac sv start n s ≠ .ok s' := by
  intro h
  obtain ⟨m, rfl⟩ : ∃ m, n = m + 1 := ⟨n - 1, by omega⟩
  unfold runEpochsFrom at h
  split at h
  · exact absurd h (by simp)
  · rename_i s1 hstep
    exact runEpoch_interval_zero cfg bt ac sv hI start s s1 hstep

/-- No failure occurs at epoch `e`: all its batches produce a loss, the
evaluation produces an accuracy, and the checkpoint save succeeds. -/
def EpochGood (bt : Nat → List BatchOutcome) (ac : Nat → Except PyErr ℚ)
    (sv : Nat → Except PyErr Unit) (e : Nat) : Prop :=
  (∃ ls : List ℚ, bt e = ls.map Except.ok ∧ ls ≠ []) ∧
  (∃ a, ac e = .ok a) ∧ (∃ u, sv e = .ok u)

theorem evalPhase_ok_of (cfg : TrainingCfg) (ac : Nat → Except PyErr ℚ)
    (sv : Nat → Except PyErr Unit) (e : Nat) (s : DriverState)
    (hI : cfg.evalInterval ≠ 0) (a : ℚ) (hac : ac e = .ok a)
    (u : Unit) (hsv : sv e = .ok u) :
    ∃ s2, evalPhase cfg ac sv e s = .ok s2 := by
  unfold evalPhase
  rw [if_neg hI]
  by_cases hm : (e + 1) % cfg.evalInterval = 0
  · rw [if_pos hm]
    simp only [hac]
    unfold checkpointPhase
    split
    · simp only [hsv]
      exact ⟨_, rfl⟩
    · exact ⟨_, rfl⟩
  · rw [if_neg hm]
    exact ⟨_, rfl⟩

theorem runEpoch_ok_of_good (cfg : TrainingCfg) (bt : Nat → List BatchOutcome)
    (ac : Nat → Except PyErr ℚ) (sv : Nat → Except PyErr Unit) (e : Nat)
    (hI : cfg.evalInterval ≠ 0) (hg : EpochGood bt ac sv e) (s : DriverState) :
    ∃ s', runEpoch cfg bt ac sv e s = .ok s' := by
  obtain ⟨⟨ls, hbt, hne⟩, ⟨a, hac⟩, ⟨u, hsv⟩⟩ := hg
  unfold runEpoch
  rw [hbt, trainPhase_ok_map ls s hne]
  obtain ⟨s2, hev⟩ := evalPhase_ok_of cfg ac sv e
    { s with optSteps := s.optSteps + ls.length,
             processed := s.processed ++ ls,
             epochLosses := s.epochLosses ++ [ls.sum / (ls.length : ℚ)] }
    hI a hac u hsv
  dsimp only
  rw [hev]
  exact ⟨_, rfl⟩

theorem runEpochsFrom_ok_of_good (cfg : TrainingCfg) (bt : Nat → List BatchOutcome)
    (ac : Nat → Except PyErr ℚ) (sv : Nat → Except PyErr Unit)
    (hI : cfg.evalInterval ≠ 0) (n : Nat) :
    ∀ (start : Nat) (s : DriverState),
      (∀ e, start ≤ e → e < start + n → EpochGood bt ac sv e) →
      ∃ s', runEpochsFrom cfg bt ac sv start n s = .ok s' ∧
        s'.epochsRun = s.epochsRun ++ List.range' start n ∧
        ∀ x ∈ s'.saves, x ∈ s.saves ∨
          (start ≤ x ∧ x < start + n ∧ (x + 1) % cfg.evalInterval = 0) := by
  induction n with
  | zero =>
    intro start s _
    exact ⟨s, rfl, by simp [List.range'], fun x hx => Or.inl hx⟩
  | succ n ih =>
    intro start s hg
    obtain ⟨s1, hstep⟩ :=
      runEpoch_ok_of_good cfg bt ac sv start hI (hg start le_rfl (by omega)) s
    obtain ⟨-, hep1, -, -, hcase⟩ := runEpoch_ok_fields cfg bt ac sv start s s1 hstep
    obtain ⟨s', hrun, hep, hsv'⟩ :=
      ih (start + 1) s1 (fun e h1 h2 => hg e (by omega) (by omega))
    refine ⟨s', ?_, ?_, ?_⟩
    · unfold runEpochsFrom
      rw [hstep]
      exact hrun
    · rw [hep, hep1, List.range'_succ]
      simp [List.append_assoc]
    · have hsv1 : ∀ x ∈ s1.saves, x ∈ s.saves ∨
          (start ≤ x ∧ x < start + (n + 1) ∧ (x + 1) % cfg.evalInterval = 0) := by
        rcases hcase with ⟨-, -, hs1, -, -⟩ | ⟨a, hm, -, -, ⟨-, -, hs1, -⟩ | ⟨-, -, hs1, -⟩⟩
        · rw [hs1]; exact fun x hx => Or.inl hx
        · rw [hs1]
          intro x hx
          rcases List.mem_append.mp hx with hx | hx
          · exact Or.inl hx
          · have hx' := List.mem_singleton.mp hx
            subst hx'
            exact Or.inr ⟨le_rfl, by omega, hm⟩
        · rw [hs1]; exact fun x hx => Or.inl hx
      intro x hx
      rcases hsv' x hx with hx1 | hx1
      · exact hsv1 x hx1
      · exact Or.inr ⟨by omega, by omega, hx1.2.2⟩

theorem evalPhase_ok_frame (cfg : TrainingCfg) (ac : Nat → Except PyErr ℚ)
    (sv : Nat → Except PyErr Unit) (e : Nat) (s s' : DriverState)
    (h : evalPhase cfg ac sv e s = .ok s') :
    s'.processed = s.processed ∧ s'.optSteps = s.optSteps ∧
    s'.epochLosses = s.epochLosses ∧ s'.schedSteps = s.schedSteps ∧
    s'.epochsRun = s.epochsRun := by
  obtain ⟨-, hcase⟩ := evalPhase_ok_shape cfg ac sv e s s' h
  rcases hcase with ⟨-, rfl⟩ | ⟨-, a, -, hcp⟩
  · exact ⟨rfl, rfl, rfl, rfl, rfl⟩
  · rcases checkpointPhase_ok_shape _ _ _ _ _ _ hcp with ⟨-, rfl⟩ | ⟨-, rfl⟩ <;>
      exact ⟨rfl, rfl, rfl, rfl, rfl⟩

/-! ## Helper lemmas about `evaluate` -/

theorem evaluate_foldl {α : Type} (m : Model α) (dl : List (List (α × Nat)))
    (p l : List Nat) (c : List Bool) :
    dl.foldl (evalStep m) (p, l, c) =
      (p ++ dl.flatten.map (fun ex => argmax (m.logits m.params ex.1)),
       l ++ dl.flatten.map Prod.snd,
       c ++ List.replicate dl.length false) := by
  induction dl generalizing p l c with
  | nil => simp
  | cons b t ih =>
    simp only [List.foldl_cons, evalStep, ih]
    simp [List.replicate_succ, List.append_assoc]

theorem countP_zip_map {β : Type} (f g : β → Nat) (xs : List β) :
    ((xs.map f).zip (xs.map g)).countP (fun pr => decide (pr.1 = pr.2)) =
      xs.countP fun x => decide (f x = g x) := by
  induction xs with
  | nil => rfl
  | cons x t ih =>
    simp only [List.map_cons, List.zip_cons_cons, List.countP_cons, ih]

/-! ## Claim theorems -/

/-- Claim C1 as frozen, quantified over all completed runs of the driver:
a checkpoint is saved at an evaluation epoch iff its accuracy is strictly
greater than every previously observed validation accuracy (including the
first evaluation, where the condition is vacuous). -/
def claimC1 : Prop :=
  ∀ (cfg : TrainingCfg) (bt : Nat → List BatchOutcome) (ac : Nat → Except PyErr ℚ)
    (sv : Nat → Except PyErr Unit) (s : DriverState),
    main (.ok cfg) bt ac sv = .ok s → savedIffStrictMax s

/-- C1 (counterexample): the frozen claim is false on the code.  With one
epoch, `eval_interval = 1` and a first validation accuracy of `0.0`, there
are no previous accuracies (so the claim demands a save), but the driver
does not save because `best_acc` is initialised to `0.0` and `0.0 > 0.0`
fails. -/
theorem checkpoint_iff_claim_false : ¬ claimC1 := by
  intro hclaim
  have hrun : main (.ok ⟨0, 1, 1, 0, 1, 1, "p"⟩) (fun _ => [.ok 1])
      (fun _ => .ok 0) (fun _ => .ok ()) =
      .ok { bestAcc := 0, schedSteps := 1, optSteps := 1, epochLosses := [1],
            accsSeen := [(0, 0)], saves := [], writes := [], epochsRun := [0],
            processed := [1], dirsCreated := ["p"] } := by
    norm_num [main, runEpochsFrom, runEpoch, trainPhase, trainBatches, evalPhase,
      checkpointPhase, initState]
  have h := hclaim _ _ _ _ _ hrun 0 (by norm_num)
  simp at h

/-- C1 (amended): in every completed run, a checkpoint is saved at an
evaluation epoch iff its accuracy is strictly greater than `0.0` (the
initial `best_acc`) and strictly greater than every previously observed
validation accuracy; in particular a first evaluation with accuracy `0.0`
does not save. -/
theorem checkpoint_saves_iff_strict_improvement (cfg : TrainingCfg)
    (bt : Nat → List BatchOutcome) (ac : Nat → Except PyErr ℚ)
    (sv : Nat → Except PyErr Unit) (s : DriverState)
    (h : main (.ok cfg) bt ac sv = .ok s) :
    s.saves = specSaves s.accsSeen := by
  unfold main at h
  exact (runEpochsFrom_preserves_inv cfg bt ac sv cfg.epochs 0 (initState cfg) s h
    ⟨rfl, rfl⟩).2

/-- The final state of the concrete run used by the C1 witness. -/
def c1wState : DriverState :=
  { bestAcc := 1/2, schedSteps := 1, optSteps := 1, epochLosses := [2],
    accsSeen := [(0, 1/2)], saves := [0], writes := [osPathJoin "w" "best_model.pth"],
    epochsRun := [0], processed := [2], dirsCreated := ["w"] }

/-- C1 (witness): a concrete completed run (one epoch, accuracy `1/2`)
satisfying the amended checkpoint characterisation. -/
theorem checkpoint_saves_iff_strict_improvement_witness :
    main (.ok ⟨0, 1, 1, 0, 1, 1, "w"⟩) (fun _ => [.ok 2]) (fun _ => .ok (1/2))
        (fun _ => .ok ()) = .ok c1wState ∧
    c1wState.saves = specSaves c1wState.accsSeen := by
  have hrun : main (.ok ⟨0, 1, 1, 0, 1, 1, "w"⟩) (fun _ => [.ok 2])
      (fun _ => .ok (1/2)) (fun _ => .ok ()) = .ok c1wState := by
    norm_num [main, runEpochsFrom, runEpoch, trainPhase, trainBatches, evalPhase,
      checkpointPhase, initState, c1wState]
  exact ⟨hrun, checkpoint_saves_iff_strict_improvement _ _ _ _ _ hrun⟩

/-- C2: `evaluate` returns the fraction of individual examples whose
arg-max logit equals the true label, aggregated over all examples of all
batches (weighted by example count, not an average of per-batch
accuracies). -/
theorem evaluate_accuracy_fraction {α : Type} (model : Model α)
    (dl : List (List (α × Nat))) (h : 0 < dl.flatten.length) :
    (evaluate model dl).1 =
      ((dl.flatten.countP fun ex =>
          decide (argmax (model.logits model.params ex.1) = ex.2)) : ℚ) /
        (dl.flatten.length : ℚ) := by
  unfold evaluate
  dsimp only
  rw [evaluate_foldl]
  dsimp only
  unfold accuracy_score
  rw [List.nil_append, List.nil_append,
    countP_zip_map Prod.snd (fun ex => argmax (model.logits model.params ex.1)) dl.flatten,
    List.length_map]
  have hc : (dl.flatten.countP fun x =>
        decide (Prod.snd x = argmax (model.logits model.params x.1))) =
      dl.flatten.countP fun ex =>
        decide (argmax (model.logits model.params ex.1) = ex.2) :=
    List.countP_congr fun x _ => by simp [eq_comm]
  rw [hc]

/-- The model used by the C2 witness: class-0 inputs give logits `[1, 0]`,
others `[0, 1]`. -/
def c2model : Model Nat :=
  { params := [], training := true,
    logits := fun _ x => if x = 0 then [1, 0] else [0, 1] }

/-- The evaluation set of the C2 witness: batches of sizes 3 and 5, all
predicted correctly. -/
def c2dl : List (List (Nat × Nat)) :=
  [[(0, 0), (1, 1), (0, 0)], [(1, 1), (0, 0), (1, 1), (0, 0), (1, 1)]]

/-- C2 (witness): on batches of sizes 3 and 5 the fraction law applies. -/
theorem evaluate_accuracy_fraction_witness :
    0 < c2dl.flatten.length ∧
    (evaluate c2model c2dl).1 =
      ((c2dl.flatten.countP fun ex =>
          decide (argmax (c2model.logits c2model.params ex.1) = ex.2)) : ℚ) /
        (c2dl.flatten.length : ℚ) :=
  ⟨by decide, evaluate_accuracy_fraction c2model c2dl (by decide)⟩

/-- C3: the learning-rate scheduler advances exactly once per completed
epoch: any run of `k` epoch iterations from the initial state that
completes normally has performed exactly `k` `scheduler.step()` calls,
for every configuration (in particular for every `eval_interval`), and
regardless of whether evaluation ran in any of those epochs. -/
theorem scheduler_steps_once_per_epoch (cfg : TrainingCfg)
    (bt : Nat → List BatchOutcome) (ac : Nat → Except PyErr ℚ)
    (sv : Nat → Except PyErr Unit) (k : Nat) (s : DriverState)
    (h : runEpochsFrom cfg bt ac sv 0 k (initState cfg) = .ok s) :
    s.schedSteps = k := by
  have hs := runEpochsFrom_ok_sched cfg bt ac sv k 0 (initState cfg) s h
  simpa [initState] using hs

/-- The final state of the concrete run used by the C3 witness. -/
def c3wState : DriverState :=
  { bestAcc := 1, schedSteps := 2, optSteps := 2, epochLosses := [1, 1],
    accsSeen := [(1, 1)], saves := [1], writes := [osPathJoin "p" "best_model.pth"],
    epochsRun := [0, 1], processed := [1, 1], dirsCreated := ["p"] }

/-- C3 (witness): a concrete two-epoch run with `eval_interval = 2`
(evaluation only at the second epoch) has stepped the scheduler twice. -/
theorem scheduler_steps_once_per_epoch_witness :
    runEpochsFrom ⟨0, 1, 1, 0, 2, 2, "p"⟩ (fun _ => [.ok 1]) (fun _ => .ok 1)
        (fun _ => .ok ()) 0 2 (initState ⟨0, 1, 1, 0, 2, 2, "p"⟩) = .ok c3wState ∧
    c3wState.schedSteps = 2 := by
  have hrun : runEpochsFrom ⟨0, 1, 1, 0, 2, 2, "p"⟩ (fun _ => [.ok 1])
      (fun _ => .ok 1) (fun _ => .ok ()) 0 2 (initState ⟨0, 1, 1, 0, 2, 2, "p"⟩) =
      .ok c3wState := by
    norm_num [runEpochsFrom, runEpoch, trainPhase, trainBatches, evalPhase,
      checkpointPhase, initState, c3wState]
  exact ⟨hrun, scheduler_steps_once_per_epoch _ _ _ _ 2 _ hrun⟩

/-- C4: in any completed epoch iteration whose training batches all
produce losses `ls` (non-empty), the training loop processes each batch
exactly once in order, applies exactly one optimizer step per batch, and
reports the arithmetic mean `ls.sum / ls.length` as the epoch training
loss. -/
theorem train_epoch_mean_loss (cfg : TrainingCfg) (bt : Nat → List BatchOutcome)
    (ac : Nat → Except PyErr ℚ) (sv : Nat → Except PyErr Unit)
    (e : Nat) (s s' : DriverState) (ls : List ℚ)
    (hbt : bt e = ls.map Except.ok) (hne : ls ≠ [])
    (h : runEpoch cfg bt ac sv e s = .ok s') :
    s'.processed = s.processed ++ ls ∧
    s'.optSteps = s.optSteps + ls.length ∧
    s'.epochLosses = s.epochLosses ++ [ls.sum / (ls.length : ℚ)] := by
  obtain ⟨s1, s2, htp, hev, hs'⟩ := runEpoch_ok_shape cfg bt ac sv e s s' h
  rw [hbt, trainPhase_ok_map ls s hne] at htp
  simp only [Except.ok.injEq] at htp
  subst htp
  obtain ⟨hp, ho, hl, -, -⟩ := evalPhase_ok_frame cfg ac sv e _ s2 hev
  subst hs'
  exact ⟨hp, ho, hl⟩

/-- The final state of the concrete epoch used by the C4 witness. -/
def c4wState : DriverState :=
  { bestAcc := 1, schedSteps := 1, optSteps := 1, epochLosses := [2],
    accsSeen := [(0, 1)], saves := [0], writes := [osPathJoin "p" "best_model.pth"],
    epochsRun := [0], processed := [2], dirsCreated := ["p"] }

/-- C4 (witness): a concrete epoch with one batch of loss `2` processes
that batch once, steps the optimizer once, and reports mean loss `2`. -/
theorem train_epoch_mean_loss_witness :
    runEpoch ⟨0, 1, 1, 0, 1, 1, "p"⟩ (fun _ => [.ok 2]) (fun _ => .ok 1)
        (fun _ => .ok ()) 0 (initState ⟨0, 1, 1, 0, 1, 1, "p"⟩) = .ok c4wState ∧
    c4wState.processed = (initState ⟨0, 1, 1, 0, 1, 1, "p"⟩).processed ++ [2] ∧
    c4wState.optSteps = (initState ⟨0, 1, 1, 0, 1, 1, "p"⟩).optSteps + [(2 : ℚ)].length ∧
    c4wState.epochLosses = (initState ⟨0, 1, 1, 0, 1, 1, "p"⟩).epochLosses ++
      [[(2 : ℚ)].sum / (([(2 : ℚ)].length : Nat) : ℚ)] := by
  have hrun : runEpoch ⟨0, 1, 1, 0, 1, 1, "p"⟩ (fun _ => [.ok 2]) (fun _ => .ok 1)
      (fun _ => .ok ()) 0 (initState ⟨0, 1, 1, 0, 1, 1, "p"⟩) = .ok c4wState := by
    norm_num [runEpoch, trainPhase, trainBatches, evalPhase, checkpointPhase,
      initState, c4wState]
  obtain ⟨h1, h2, h3⟩ := train_epoch_mean_loss _ _ _ _ 0 _ _ [2] rfl (by simp) hrun
  exact ⟨hrun, h1, h2, h3⟩

/-- C5: determinism.  `set_seed` overwrites every random source of the
process with the configured seed, so a full run (sampler batch ordering
and driver outcome, in particular the epoch-1 training loss) does not
depend on the pre-existing global random state: two independent runs with
identical configuration and data produce identical results. -/
theorem run_deterministic_from_seed :
    (∀ seed : Nat, set_seed seed = RNGState.mk seed seed seed seed) ∧
    (∀ (g1 g2 : RNGState) (cfg : TrainingCfg) (lengths : List Nat)
        (lossOf : List (List Nat) → Nat → List BatchOutcome)
        (accOf : Nat → Except PyErr ℚ) (saveOf : Nat → Except PyErr Unit),
      fullRun g1 cfg lengths lossOf accOf saveOf =
        fullRun g2 cfg lengths lossOf accOf saveOf) :=
  ⟨fun _ => rfl, fun _ _ _ _ _ _ _ => rfl⟩

/-- Claim C6 as frozen, quantified over all configurations: for every
configuration the driver terminates normally after exactly
`cfg.epochs` epoch iterations, with no checkpoint written outside those
iterations. -/
def claimC6 : Prop :=
  ∀ (cfg : TrainingCfg) (bt : Nat → List BatchOutcome) (ac : Nat → Except PyErr ℚ)
    (sv : Nat → Except PyErr Unit),
    ∃ s, main (.ok cfg) bt ac sv = .ok s ∧ s.epochsRun = List.range cfg.epochs ∧
      ∀ e ∈ s.saves, e < cfg.epochs

/-- C6 (counterexample): the frozen claim is false on the code: with
`epochs = 1` and `eval_interval = 0` the driver raises
`ZeroDivisionError` during the first epoch instead of completing its one
epoch iteration. -/
theorem driver_termination_claim_false : ¬ claimC6 := by
  intro hclaim
  obtain ⟨s, hs, -, -⟩ := hclaim ⟨0, 1, 1, 0, 1, 0, "p"⟩ (fun _ => [.ok 1])
    (fun _ => .ok 0) (fun _ => .ok ())
  have hs' : runEpochsFrom ⟨0, 1, 1, 0, 1, 0, "p"⟩ (fun _ => [.ok 1])
      (fun _ => .ok 0) (fun _ => .ok ()) 0 1
      (initState ⟨0, 1, 1, 0, 1, 0, "p"⟩) = .ok s := hs
  exact runEpochsFrom_interval_zero_not_ok ⟨0, 1, 1, 0, 1, 0, "p"⟩ _ _ _ rfl
    1 0 (by omega) _ s hs'

/-- C6 (amended): provided `eval_interval ≥ 1` and no batch, evaluation
or save raises an error (in particular each training loader is
non-empty), the driver terminates normally after exactly `cfg.epochs`
epoch iterations, and every checkpoint is written during one of those
iterations, at an evaluation epoch. -/
theorem driver_terminates_after_epochs (cfg : TrainingCfg)
    (bt : Nat → List BatchOutcome) (ac : Nat → Except PyErr ℚ)
    (sv : Nat → Except PyErr Unit) (hI : 1 ≤ cfg.evalInterval)
    (hg : ∀ e, e < cfg.epochs → EpochGood bt ac sv e) :
    ∃ s, main (.ok cfg) bt ac sv = .ok s ∧
      s.epochsRun = List.range cfg.epochs ∧
      ∀ e ∈ s.saves, e < cfg.epochs ∧ (e + 1) % cfg.evalInterval = 0 := by
  have hI' : cfg.evalInterval ≠ 0 := by omega
  obtain ⟨s', hrun, hep, hsv⟩ :=
    runEpochsFrom_ok_of_good cfg bt ac sv hI' cfg.epochs 0 (initState cfg)
      (fun e h1 h2 => hg e (by omega))
  refine ⟨s', ?_, ?_, ?_⟩
  · unfold main
    exact hrun
  · rw [hep]
    simp [initState, List.range_eq_range']
  · intro e he
    rcases hsv e he with h1 | h1
    · simp [initState] at h1
    · exact ⟨by omega, h1.2.2⟩

/-- C6 (witness): a concrete one-epoch configuration with non-failing
oracles completes normally. -/
theorem driver_terminates_after_epochs_witness :
    ∃ s, main (.ok ⟨0, 1, 1, 0, 1, 1, "q"⟩) (fun _ => [.ok 1]) (fun _ => .ok 1)
        (fun _ => .ok ()) = .ok s ∧
      s.epochsRun = List.range (1 : Nat) ∧
      ∀ e ∈ s.saves, e < 1 ∧ (e + 1) % 1 = 0 :=
  driver_terminates_after_epochs ⟨0, 1, 1, 0, 1, 1, "q"⟩ _ _ _ (by decide)
    (fun e he => ⟨⟨[1], rfl, by simp⟩, ⟨1, rfl⟩, ⟨(), rfl⟩⟩)

/-- C7: in every completed run, the directory `training.save_path` is the
one created at startup, and every checkpoint write of the run goes to the
single fixed path `os.path.join(training.save_path, "best_model.pth")`
(so each save overwrites the previous one and at most one best-checkpoint
artifact exists). -/
theorem checkpoint_single_fixed_path (cfg : TrainingCfg)
    (bt : Nat → List BatchOutcome) (ac : Nat → Except PyErr ℚ)
    (sv : Nat → Except PyErr Unit) (s : DriverState)
    (h : main (.ok cfg) bt ac sv = .ok s) :
    s.dirsCreated = [cfg.savePath] ∧
    ∀ p ∈ s.writes, p = osPathJoin cfg.savePath "best_model.pth" := by
  unfold main at h
  obtain ⟨hd, hw⟩ := runEpochsFrom_ok_writes cfg bt ac sv cfg.epochs 0 (initState cfg) s h
  refine ⟨by rw [hd]; rfl, ?_⟩
  intro p hp
  rcases hw p hp with h1 | h1
  · simp [initState] at h1
  · exact h1

/-- The final state of the concrete run used by the C7 witness. -/
def c7wState : DriverState :=
  { bestAcc := 1/2, schedSteps := 1, optSteps := 1, epochLosses := [1],
    accsSeen := [(0, 1/2)], saves := [0], writes := [osPathJoin "r" "best_model.pth"],
    epochsRun := [0], processed := [1], dirsCreated := ["r"] }

/-- C7 (witness): a concrete run that saves once; its single write went
to the fixed checkpoint path. -/
theorem checkpoint_single_fixed_path_witness :
    main (.ok ⟨0, 1, 1, 0, 1, 1, "r"⟩) (fun _ => [.ok 1]) (fun _ => .ok (1/2))
        (fun _ => .ok ()) = .ok c7wState ∧
    c7wState.dirsCreated = ["r"] ∧
    ∀ p ∈ c7wState.writes, p = osPathJoin "r" "best_model.pth" := by
  have hrun : main (.ok ⟨0, 1, 1, 0, 1, 1, "r"⟩) (fun _ => [.ok 1])
      (fun _ => .ok (1/2)) (fun _ => .ok ()) = .ok c7wState := by
    norm_num [main, runEpochsFrom, runEpoch, trainPhase, trainBatches, evalPhase,
      checkpointPhase, initState, c7wState]
  exact ⟨hrun, checkpoint_single_fixed_path _ _ _ _ _ hrun⟩

/-- C8: `evaluate` leaves the parameters of the model unchanged, returns the
model in eval (non-training) mode, and performs exactly one forward call
per batch, each with gradient tracking disabled. -/
theorem evaluate_frame_and_no_grad {α : Type} (model : Model α)
    (dl : List (List (α × Nat))) :
    (evaluate model dl).2.1.params = model.params ∧
    (evaluate model dl).2.1.training = false ∧
    (evaluate model dl).2.2 = List.replicate dl.length false := by
  unfold evaluate
  dsimp only
  rw [evaluate_foldl]
  exact ⟨rfl, rfl, by simp⟩

/-- C9: the driver has no retry or exception-handling logic: a
configuration-loading error is returned by `main` unchanged, and if any
epoch iteration (covering training batches, evaluation, and
checkpointing) raises an error after a completed prefix of epochs, `main`
returns exactly that error. -/
theorem errors_propagate_unchanged :
    (∀ (err : PyErr) (bt : Nat → List BatchOutcome) (ac : Nat → Except PyErr ℚ)
        (sv : Nat → Except PyErr Unit),
      main (.error err) bt ac sv = .error err) ∧
    (∀ (cfg : TrainingCfg) (bt : Nat → List BatchOutcome)
        (ac : Nat → Except PyErr ℚ) (sv : Nat → Except PyErr Unit)
        (i : Nat) (si : DriverState) (err : PyErr),
      i < cfg.epochs →
      runEpochsFrom cfg bt ac sv 0 i (initState cfg) = .ok si →
      runEpoch cfg bt ac sv i si = .error err →
      main (.ok cfg) bt ac sv = .error err) := by
  constructor
  · intro err bt ac sv
    rfl
  · intro cfg bt ac sv i si err hi hpre herr
    unfold main
    refine runEpochsFrom_error_prop cfg bt ac sv i 0 (initState cfg) si err
      cfg.epochs hpre ?_ hi
    rw [Nat.zero_add]
    exact herr

/-- C9 (witness): a failing configuration load propagates unchanged, and
a device error raised by the first training batch aborts the run with
exactly that error. -/
theorem errors_propagate_unchanged_witness :
    main (.error (.runtime 3)) (fun _ => []) (fun _ => .ok 0) (fun _ => .ok ()) =
      .error (.runtime 3) ∧
    main (.ok ⟨0, 1, 1, 0, 1, 1, "p"⟩) (fun _ => [.error (.runtime 7)])
        (fun _ => .ok 0) (fun _ => .ok ()) = .error (.runtime 7) :=
  ⟨errors_propagate_unchanged.1 (.runtime 3) _ _ _,
    errors_propagate_unchanged.2 ⟨0, 1, 1, 0, 1, 1, "p"⟩ _ _ _ 0 (initState _)
      (.runtime 7) (by decide) rfl (by simp [runEpoch, trainPhase, trainBatches])⟩

/-- C10: the guard `(epoch + 1) % eval_interval` makes `eval_interval = 0`
raise an uncaught `ZeroDivisionError` at the end of the first epoch (once
the batches of that epoch have all produced losses), and with
`eval_interval = 0` no run ever observes an accuracy or saves a
checkpoint: evaluation and checkpointing require `eval_interval ≥ 1`. -/
theorem eval_interval_zero_division (cfg : TrainingCfg)
    (bt : Nat → List BatchOutcome) (ac : Nat → Except PyErr ℚ)
    (sv : Nat → Except PyErr Unit) (hI : cfg.evalInterval = 0) :
    (1 ≤ cfg.epochs → ∀ ls : List ℚ, bt 0 = ls.map Except.ok → ls ≠ [] →
      main (.ok cfg) bt ac sv = .error .zeroDivision) ∧
    (∀ s, main (.ok cfg) bt ac sv = .ok s → s.accsSeen = [] ∧ s.saves = []) := by
  constructor
  · intro hE ls hbt hne
    have hgoal : runEpochsFrom cfg bt ac sv 0 cfg.epochs (initState cfg) =
        .error .zeroDivision := by
      obtain ⟨m, hm⟩ : ∃ m, cfg.epochs = m + 1 := ⟨cfg.epochs - 1, by omega⟩
      rw [hm]
      unfold runEpochsFrom
      rw [runEpoch_interval_zero_err cfg bt ac sv hI 0 (initState cfg) ls hbt hne]
    exact hgoal
  · intro s hs
    have hs' : runEpochsFrom cfg bt ac sv 0 cfg.epochs (initState cfg) = .ok s := hs
    by_cases hE : cfg.epochs = 0
    · rw [hE] at hs'
      simp only [runEpochsFrom, Except.ok.injEq] at hs'
      rw [← hs']
      exact ⟨rfl, rfl⟩
    · exact absurd hs' (runEpochsFrom_interval_zero_not_ok cfg bt ac sv hI
        cfg.epochs 0 (by omega) (initState cfg) s)

/-- C10 (witness): a concrete configuration with `eval_interval = 0` and
one epoch of one successful batch aborts with `ZeroDivisionError`. -/
theorem eval_interval_zero_division_witness :
    main (.ok ⟨0, 1, 1, 0, 1, 0, "p"⟩) (fun _ => [.ok 1]) (fun _ => .ok 0)
        (fun _ => .ok ()) = .error .zeroDivision :=
  (eval_interval_zero_division ⟨0, 1, 1, 0, 1, 0, "p"⟩ _ _ _ rfl).1 (by decide)
    [1] rfl (by simp)

end Train
